import Mathlib

/-!
Shallow embedding of `sales_analysis/analyze_sales.py` and verification of the
behavioural claims of its specification.

Conventions of the embedding:
* a pandas DataFrame row is a Lean structure; a table is a `List` of rows;
* `float` sales values are modelled as `ℚ` (the claims are about the exact
  arithmetic identities the code computes, not about rounding);
* a value that pandas would hold as `NaN` (a failed coercion, a missing cell)
  is modelled as `none : Option ℚ`;
* pandas `Timestamp`s are modelled as calendar dates ordered
  lexicographically by (year, month, day), which is the chronological order
  pandas uses for comparisons;
* Python strings compare lexicographically by code point; the embedding
  carries that order as executable `Bool` functions on the character lists.
-/

namespace SalesAnalysis

/-! ### Python string order and lowercasing -/

/-- Code-point comparison of two characters, the primitive of Python's
string order. -/
def charLt (a b : Char) : Bool :=
  decide (a < b)

/-- Lexicographic code-point order on character lists: Python's `<` on
`str` (a strict prefix is smaller). -/
def charListLt : List Char → List Char → Bool
  | [], [] => false
  | [], _ :: _ => true
  | _ :: _, [] => false
  | a :: as, b :: bs => charLt a b || (a == b && charListLt as bs)

/-- Python `s < t` on strings. -/
def strLt (s t : String) : Bool :=
  charListLt s.data t.data

/-- Python `s <= t` on strings; with a total strict order this is
`not (t < s)`, which is how sorting routines consume it. -/
def strLe (s t : String) : Bool :=
  ! strLt t s

/-- Propositional form of `strLe`, the relation pandas' ascending sorts
order string keys by. -/
def strLeP (a b : String) : Prop :=
  strLe a b = true

instance : DecidableRel strLeP := fun a b => Bool.decEq (strLe a b) true

/-- Python `str.lower()`, modelled on the character list. Python lowercases
per Unicode; every header name the script's candidate lists can match is
either basic-latin (where `Char.toLower` agrees with Python) or Chinese
(caseless), so ASCII lowercasing is the faithful model on the relevant
alphabet. -/
def lowerStr (s : String) : String :=
  ⟨s.data.map Char.toLower⟩

/-! ### Dates and month labels -/

/-- Calendar date, the model of a parsed pandas `Timestamp` (time-of-day
components play no role in the script's comparisons at day granularity). -/
structure Date where
  year : ℕ
  month : ℕ
  day : ℕ
deriving DecidableEq

/-- Chronological strict order on dates: lexicographic on (year, month, day),
the order pandas `Timestamp` comparison implements. -/
def dateLt (a b : Date) : Bool :=
  a.year < b.year ||
    (a.year == b.year && (a.month < b.month ||
      (a.month == b.month && a.day < b.day)))

/-- Chronological non-strict order on dates. -/
def dateLe (a b : Date) : Bool :=
  dateLt a b || a == b

/-- Zero padding of a number to at least two digits, as Python's `%m`
formatting of a month inside `str(Period)` does. -/
def pad2 (n : ℕ) : String :=
  if n < 10 then "0" ++ toString n else toString n

/-- Zero padding of a year to at least four digits, as Python's `%Y`
formatting inside `str(Period)` does. -/
def pad4 (n : ℕ) : String :=
  if n < 10 then "000" ++ toString n
  else if n < 100 then "00" ++ toString n
  else if n < 1000 then "0" ++ toString n
  else toString n

/-- Month label of a date: `df[date_col].dt.to_period('M').astype(str)`
(line 123) renders a monthly period as `"YYYY-MM"`. -/
def monthStr (d : Date) : String :=
  pad4 d.year ++ "-" ++ pad2 d.month

/-! ### Column detection (`detect_column`, lines 24-33)

```python
def detect_column(df, candidates):
    for c in candidates:
        if c in df.columns:
            return c
    # fuzzy: lower-case match
    lowermap = {col.lower(): col for col in df.columns}
    for c in candidates:
        if c.lower() in lowermap:
            return lowermap[c.lower()]
    return None
```
-/

/-- Lookup in `lowermap = {col.lower(): col for col in df.columns}`: in a dict
comprehension a later column overwrites an earlier one with the same
lowercase form, so the binding for `key` is the LAST column whose lowercase
equals `key`; equivalently the first such column of the reversed list. -/
def lowermapGet (cols : List String) (key : String) : Option String :=
  cols.reverse.find? (fun col => lowerStr col == key)

/-- Embedding of `detect_column`: first pass returns the first candidate that
occurs verbatim among the headers; second pass returns the `lowermap` binding
of the first candidate whose lowercase form is a key of `lowermap`; otherwise
`none` (Python `None`). -/
def detect_column (cols candidates : List String) : Option String :=
  match candidates.find? (fun c => cols.contains c) with
  | some c => some c
  | none =>
    match candidates.find? (fun c => (lowermapGet cols (lowerStr c)).isSome) with
    | some c => lowermapGet cols (lowerStr c)
    | none => none

/-! ### Rows and early cleaning (lines 82-120) -/

/-- Raw table row after column detection, before cleaning: the date may have
failed `pd.to_datetime(..., errors="coerce")` (then `none`), the category may
be missing, and the amount/quantity cells may have failed
`pd.to_numeric(..., errors="coerce")` (then `none`). -/
structure RawRow where
  date : Option Date
  cat : Option String
  amount : Option ℚ
  qty : Option ℚ
deriving DecidableEq

/-- Embedding of `df.dropna(subset=[date_col])` (line 83): rows whose date
failed to parse are removed. -/
def dropBadDates (rows : List RawRow) : List RawRow :=
  rows.filter (fun r => r.date.isSome)

/-- Inclusive date-range mask of lines 86-88:
`(df[date_col] >= start) & (df[date_col] <= end)`. -/
def inRange (s e d : Date) : Bool :=
  dateLe s d && dateLe d e

/-- Embedding of lines 82-89: parsed-date dropna followed by `df.loc[mask]`
with the inclusive range mask. -/
def filterDates (s e : Date) (rows : List RawRow) : List RawRow :=
  (dropBadDates rows).filter (fun r =>
    match r.date with
    | some d => inRange s e d
    | none => false)

/-- Helper for first-occurrence deduplication, threading the set of rows
already seen. -/
def dedupFirstGo [DecidableEq α] (seen : List α) : List α → List α
  | [] => []
  | a :: l => if a ∈ seen then dedupFirstGo seen l else a :: dedupFirstGo (a :: seen) l

/-- Embedding of `df.drop_duplicates()` (line 94): keep the first occurrence
of each fully identical row. -/
def dedupFirst [DecidableEq α] (l : List α) : List α :=
  dedupFirstGo [] l

/-! ### Amount fallback branch (lines 104-120)

When no amount column was detected and a quantity column exists, the script
sets `amt_col = qty_col`, coerces that column to numeric, drops the rows where
coercion failed (`dropna(subset=[amt_col])`, reporting `before - len(df)`),
and only afterwards applies `fillna(0)` to the quantity column (line 120) —
which at that point holds no missing values any more. -/

/-- Rows surviving `df.dropna(subset=[amt_col])` when the quantity column is
the amount column, paired with the reported drop count `before - len(df)`
(lines 113-116). -/
def qtyAsAmountDrop (rows : List RawRow) : List RawRow × ℕ :=
  let kept := rows.filter (fun r => r.qty.isSome)
  (kept, rows.length - kept.length)

/-- Embedding of `df[qty_col] = pd.to_numeric(df[qty_col], errors="coerce").fillna(0)`
(line 120), applied after the amount dropna. -/
def qtyFill (rows : List RawRow) : List RawRow :=
  rows.map (fun r => { r with qty := some (r.qty.getD 0) })

/-! ### Aggregation (lines 122-137) -/

/-- Cleaned row as it enters aggregation: date parsed and in range, category
filled (line 99 or 102), amount coerced and non-missing (line 115), quantity
coerced with missing values zero-filled (line 120). `qty` is meaningful only
when the run has a quantity column. -/
structure SRow where
  date : Date
  cat : String
  amount : ℚ
  qty : ℚ
deriving DecidableEq

/-- Group key of a row for `df.groupby(["month", cat_col])`: the derived
month label (line 123) and the category. -/
def keyOf (r : SRow) : String × String :=
  (monthStr r.date, r.cat)

/-- Order in which `groupby(sort=True)` (the pandas default) emits group
keys: lexicographic on the (month, category) tuple. -/
def keyLeP (a b : String × String) : Prop :=
  (strLt a.1 b.1 || (a.1 == b.1 && strLe a.2 b.2)) = true

instance : DecidableRel keyLeP := fun a b =>
  Bool.decEq (strLt a.1 b.1 || (a.1 == b.1 && strLe a.2 b.2)) true

/-- Distinct group keys of `df.groupby(["month", cat_col])`, in the sorted
order pandas emits them. -/
def groupKeys (rows : List SRow) : List (String × String) :=
  List.insertionSort keyLeP (dedupFirst (rows.map keyOf))

/-- Output row of the aggregation of lines 133-137. -/
structure AggRow where
  month : String
  cat : String
  sales_amount : ℚ
  qty : ℚ
  orders : ℕ
deriving DecidableEq

/-- Embedding of lines 133-137:

```python
agg = df.groupby(["month", cat_col]).agg(
    sales_amount=(amt_col, 'sum'),
    qty=(qty_col, 'sum') if (qty_col and qty_col in df.columns) else (amt_col, 'count'),
    orders=(amt_col, 'count')
).reset_index()
```

`hasQty` states whether a quantity column exists. `count` counts the
non-missing amount cells, and every row reaching this point has a non-missing
amount, so it is the group size. -/
def aggregate (hasQty : Bool) (rows : List SRow) : List AggRow :=
  (groupKeys rows).map (fun k =>
    let g := rows.filter (fun r => monthStr r.date == k.1 && r.cat == k.2)
    { month := k.1
      cat := k.2
      sales_amount := (g.map SRow.amount).sum
      qty := if hasQty then (g.map SRow.qty).sum else (g.length : ℚ)
      orders := g.length })

/-! ### Pivot and percent change (lines 139-144)

```python
pivot = agg.pivot(index='month', columns=cat_col, values='sales_amount').fillna(0)
pivot = pivot.sort_index()
pct = pivot.pct_change().replace([np.inf, -np.inf], np.nan)
```
-/

/-- Row index of the pivot: the distinct month labels of the aggregate,
sorted ascending (`pivot` sorts the index; `sort_index()` re-sorts it).
The labels are strings, so the order is Python string order — chronological
for the zero-padded `"YYYY-MM"` labels `monthStr` produces. -/
def pivotMonths (agg : List AggRow) : List String :=
  List.insertionSort strLeP (dedupFirst (agg.map AggRow.month))

/-- Column index of the pivot: the distinct category labels of the
aggregate, sorted the same way (`pivot` sorts columns too; only distinctness
and membership of this axis matter to the claims). -/
def pivotCats (agg : List AggRow) : List String :=
  List.insertionSort strLeP (dedupFirst (agg.map AggRow.cat))

/-- Cell of the pivot at (month, category): the `sales_amount` of the unique
aggregate row with that key if one exists, else the `fillna(0)` value 0. -/
def pivotCell (agg : List AggRow) (m c : String) : ℚ :=
  match agg.find? (fun a => a.month == m && a.cat == c) with
  | some a => a.sales_amount
  | none => 0

/-- Cell at 0-based row position `i`, column `c` of the percent-change matrix
`pivot.pct_change().replace([np.inf, -np.inf], np.nan)`.

`pct_change` divides each row by the previous row and subtracts 1
(`df / df.shift(1) - 1`); the shifted-in first row is `NaN`, a zero previous
value yields `±inf` (replaced by `NaN` on line 144) or `NaN` (`0/0`), and
`NaN` is modelled as `none`. The default `fill_method` padding is vacuous
here because the pivot holds no `NaN` after `fillna(0)`. -/
def pctCell (agg : List AggRow) (i : ℕ) (c : String) : Option ℚ :=
  if i = 0 ∨ (pivotMonths agg).length ≤ i then none
  else
    let prev := pivotCell agg ((pivotMonths agg).getD (i - 1) "") c
    let cur := pivotCell agg ((pivotMonths agg).getD i "") c
    if prev = 0 then none else some (cur / prev - 1)

/-! ### Chart series selection (lines 156-164)

```python
total_by_cat = agg.groupby(cat_col)['sales_amount'].sum().sort_values(ascending=False)
top_cats = total_by_cat.head(top_n).index.tolist()
for c in top_cats:
    if c in pivot.columns:
        plt.plot(...)
```
-/

/-- Total `sales_amount` of one category across the whole aggregate. -/
def totalFor (agg : List AggRow) (c : String) : ℚ :=
  ((agg.filter (fun a => a.cat == c)).map AggRow.sales_amount).sum

/-- Embedding of `agg.groupby(cat_col)['sales_amount'].sum()`: one (category,
total) pair per distinct category, keys sorted ascending (`groupby`
default `sort=True`). -/
def total_by_cat (agg : List AggRow) : List (String × ℚ) :=
  (pivotCats agg).map (fun c => (c, totalFor agg c))

/-- Non-strict order on the totals, the key `sort_values` sorts by. -/
def sndLeP (a b : String × ℚ) : Prop :=
  a.2 ≤ b.2

instance : DecidableRel sndLeP := fun a b => Rat.instDecidableLe a.2 b.2

/-- Embedding of `.sort_values(ascending=False)`: pandas argsorts the values
ascending (a stable sort at these series sizes) and reverses the result for
the descending order. -/
def sortedDescTotals (agg : List AggRow) : List (String × ℚ) :=
  (List.insertionSort sndLeP (total_by_cat agg)).reverse

/-- Embedding of `total_by_cat.head(top_n).index.tolist()`. -/
def top_cats (agg : List AggRow) (n : ℕ) : List String :=
  ((sortedDescTotals agg).map Prod.fst).take n

/-- Categories for which the loop of lines 162-164 draws a line: the selected
categories that are pivot columns. -/
def chartSeries (agg : List AggRow) (n : ℕ) : List String :=
  (top_cats agg n).filter (fun c => (pivotCats agg).contains c)

/-! ### Report step (lines 176-207)

```python
months = pivot.index.tolist()
if len(months) >= 2:
    first = months[0]
    last = months[-1]
    change = (pivot[last] - pivot[first]).sort_values(ascending=False)
    ...
    report_path.write_text(...)
else:
    print("数据月份不足，无法比较首末月变化。")
```

`pivot[last]` is DataFrame COLUMN indexing: it selects the pivot column
named `last`. The pivot's columns are category labels, while `first`/`last`
are month labels, so unless a category happens to carry a month-shaped name
the expression raises `KeyError` and the script crashes before writing the
report. The embedding makes the three outcomes explicit. -/

/-- Outcome of the report block. `written` records the first and last month
labels together with the series actually computed by line 181 when both
column lookups succeed: the per-MONTH difference of the two category columns
named `first` and `last` (only reachable when categories collide with month
labels). -/
inductive ReportOutcome where
  | skipped : ReportOutcome
  | keyError : String → ReportOutcome
  | written : String → String → (String → ℚ) → ReportOutcome

/-- Embedding of the report block: fewer than two months skips with a
message; otherwise `pivot[last]` is evaluated first and raises `KeyError`
when `last` is not a pivot column, then `pivot[first]` likewise. -/
def reportStep (agg : List AggRow) : ReportOutcome :=
  let months := pivotMonths agg
  if months.length < 2 then .skipped
  else
    let first := months.headD ""
    let last := months.getLastD ""
    if (pivotCats agg).contains last then
      if (pivotCats agg).contains first then
        .written first last (fun m => pivotCell agg m last - pivotCell agg m first)
      else .keyError first
    else .keyError last

/-! ### Order lemmas for the Python string order -/

theorem charListLt_irrefl : ∀ l : List Char, charListLt l l = false
  | [] => rfl
  | a :: l => by
    simp [charListLt, charLt, charListLt_irrefl l]

theorem charListLt_trans :
    ∀ a b c : List Char, charListLt a b = true → charListLt b c = true →
      charListLt a c = true := by
  intro a
  induction a with
  | nil =>
    intro b c hab hbc
    cases b with
    | nil => simp [charListLt] at hab
    | cons y ys =>
      cases c with
      | nil => simp [charListLt] at hbc
      | cons z zs => simp [charListLt]
  | cons x xs ih =>
    intro b c hab hbc
    cases b with
    | nil => simp [charListLt] at hab
    | cons y ys =>
      cases c with
      | nil => simp [charListLt] at hbc
      | cons z zs =>
        simp only [charListLt, charLt, Bool.or_eq_true, Bool.and_eq_true,
          beq_iff_eq, decide_eq_true_eq] at hab hbc ⊢
        rcases hab with h1 | ⟨rfl, h2⟩
        · rcases hbc with g1 | ⟨rfl, g2⟩
          · exact Or.inl (lt_trans h1 g1)
          · exact Or.inl h1
        · rcases hbc with g1 | ⟨rfl, g2⟩
          · exact Or.inl g1
          · exact Or.inr ⟨rfl, ih ys zs h2 g2⟩

theorem charListLt_trichotomy :
    ∀ a b : List Char, charListLt a b = true ∨ a = b ∨ charListLt b a = true := by
  intro a
  induction a with
  | nil =>
    intro b
    cases b with
    | nil => exact Or.inr (Or.inl rfl)
    | cons y ys => exact Or.inl (by simp [charListLt])
  | cons x xs ih =>
    intro b
    cases b with
    | nil => exact Or.inr (Or.inr (by simp [charListLt]))
    | cons y ys =>
      rcases lt_trichotomy x y with h | rfl | h
      · exact Or.inl (by simp [charListLt, charLt, h])
      · rcases ih ys with h2 | rfl | h2
        · exact Or.inl (by simp [charListLt, charLt, h2])
        · exact Or.inr (Or.inl rfl)
        · exact Or.inr (Or.inr (by simp [charListLt, charLt, h2]))
      · exact Or.inr (Or.inr (by simp [charListLt, charLt, h]))

theorem strLt_irrefl (s : String) : strLt s s = false :=
  charListLt_irrefl s.data

theorem strLt_trans {s t u : String} (h1 : strLt s t = true) (h2 : strLt t u = true) :
    strLt s u = true :=
  charListLt_trans s.data t.data u.data h1 h2

theorem strLt_trichotomy (s t : String) :
    strLt s t = true ∨ s = t ∨ strLt t s = true := by
  rcases charListLt_trichotomy s.data t.data with h | h | h
  · exact Or.inl h
  · refine Or.inr (Or.inl ?_)
    cases s with
    | mk d =>
      cases t with
      | mk d2 => exact congrArg String.mk h
  · exact Or.inr (Or.inr h)

theorem strLt_asymm {s t : String} (h : strLt s t = true) : strLt t s = false := by
  cases hg : strLt t s with
  | false => rfl
  | true =>
    have := strLt_trans h hg
    rw [strLt_irrefl] at this
    exact absurd this (by simp)

instance : IsTotal String strLeP := ⟨by
  intro a b
  unfold strLeP strLe
  cases h : strLt b a with
  | false => exact Or.inl (by simp)
  | true => exact Or.inr (by simp [strLt_asymm h])⟩

instance : IsTrans String strLeP := ⟨by
  intro a b c hab hbc
  unfold strLeP strLe at *
  simp only [Bool.not_eq_true'] at hab hbc ⊢
  cases h : strLt c a with
  | false => rfl
  | true =>
    exfalso
    rcases strLt_trichotomy a b with g | rfl | g
    · have := strLt_trans h g
      rw [hbc] at this
      exact absurd this (by simp)
    · rw [hbc] at h
      exact absurd h (by simp)
    · rw [hab] at g
      exact absurd g (by simp)⟩

theorem strLt_of_strLeP_of_ne {s t : String} (h : strLeP s t) (hne : s ≠ t) :
    strLt s t = true := by
  unfold strLeP strLe at h
  simp only [Bool.not_eq_true'] at h
  rcases strLt_trichotomy s t with g | g | g
  · exact g
  · exact absurd g hne
  · rw [h] at g
    exact absurd g (by simp)

/-! ### Lemmas on deduplication and the derived index lists -/

theorem mem_dedupFirstGo [DecidableEq α] (l : List α) :
    ∀ (seen : List α) (a : α), a ∈ dedupFirstGo seen l ↔ a ∈ l ∧ a ∉ seen := by
  induction l with
  | nil =>
    intro seen a
    simp [dedupFirstGo]
  | cons b l ih =>
    intro seen a
    by_cases hb : b ∈ seen
    · rw [dedupFirstGo, if_pos hb, ih]
      constructor
      · rintro ⟨h1, h2⟩
        exact ⟨List.mem_cons_of_mem b h1, h2⟩
      · rintro ⟨h1, h2⟩
        rcases List.mem_cons.mp h1 with rfl | h1
        · exact absurd hb h2
        · exact ⟨h1, h2⟩
    · rw [dedupFirstGo, if_neg hb]
      by_cases hab : a = b
      · subst hab
        simp [hb]
      · rw [List.mem_cons, ih]
        simp [hab, List.mem_cons]

theorem nodup_dedupFirstGo [DecidableEq α] (l : List α) :
    ∀ seen : List α, (dedupFirstGo seen l).Nodup := by
  induction l with
  | nil =>
    intro seen
    simp [dedupFirstGo]
  | cons b l ih =>
    intro seen
    by_cases hb : b ∈ seen
    · rw [dedupFirstGo, if_pos hb]
      exact ih seen
    · rw [dedupFirstGo, if_neg hb]
      refine List.nodup_cons.mpr ⟨?_, ih _⟩
      intro hmem
      rw [mem_dedupFirstGo] at hmem
      exact hmem.2 (List.mem_cons_self b seen)

theorem mem_dedupFirst [DecidableEq α] {l : List α} {a : α} :
    a ∈ dedupFirst l ↔ a ∈ l := by
  unfold dedupFirst
  rw [mem_dedupFirstGo]
  simp

theorem nodup_dedupFirst [DecidableEq α] (l : List α) : (dedupFirst l).Nodup :=
  nodup_dedupFirstGo l []

theorem mem_groupKeys {rows : List SRow} {k : String × String} :
    k ∈ groupKeys rows ↔ ∃ r ∈ rows, keyOf r = k := by
  unfold groupKeys
  rw [List.mem_insertionSort, mem_dedupFirst, List.mem_map]

theorem nodup_groupKeys (rows : List SRow) : (groupKeys rows).Nodup :=
  (List.perm_insertionSort keyLeP _).nodup_iff.mpr (nodup_dedupFirst _)

theorem mem_pivotMonths {agg : List AggRow} {m : String} :
    m ∈ pivotMonths agg ↔ ∃ a ∈ agg, a.month = m := by
  unfold pivotMonths
  rw [List.mem_insertionSort, mem_dedupFirst, List.mem_map]

theorem nodup_pivotMonths (agg : List AggRow) : (pivotMonths agg).Nodup :=
  (List.perm_insertionSort strLeP _).nodup_iff.mpr (nodup_dedupFirst _)

theorem sorted_pivotMonths (agg : List AggRow) : List.Sorted strLeP (pivotMonths agg) :=
  List.sorted_insertionSort strLeP _

theorem pairwise_lt_pivotMonths (agg : List AggRow) :
    List.Pairwise (fun a b => strLt a b = true) (pivotMonths agg) := by
  have h := ((sorted_pivotMonths agg).and (nodup_pivotMonths agg))
  exact h.imp (fun hab => strLt_of_strLeP_of_ne hab.1 hab.2)

theorem mem_pivotCats {agg : List AggRow} {c : String} :
    c ∈ pivotCats agg ↔ ∃ a ∈ agg, a.cat = c := by
  unfold pivotCats
  rw [List.mem_insertionSort, mem_dedupFirst, List.mem_map]

theorem nodup_pivotCats (agg : List AggRow) : (pivotCats agg).Nodup :=
  (List.perm_insertionSort strLeP _).nodup_iff.mpr (nodup_dedupFirst _)

/-! ### Lemmas about the aggregate -/

theorem map_key_aggregate (hasQty : Bool) (rows : List SRow) :
    (aggregate hasQty rows).map (fun a => (a.month, a.cat)) = groupKeys rows := by
  unfold aggregate
  rw [List.map_map]
  have : ((fun a : AggRow => (a.month, a.cat)) ∘
      (fun k : String × String =>
        ({ month := k.1, cat := k.2,
           sales_amount := ((rows.filter (fun r => monthStr r.date == k.1 && r.cat == k.2)).map SRow.amount).sum,
           qty := if hasQty then ((rows.filter (fun r => monthStr r.date == k.1 && r.cat == k.2)).map SRow.qty).sum
             else ((rows.filter (fun r => monthStr r.date == k.1 && r.cat == k.2)).length : ℚ),
           orders := (rows.filter (fun r => monthStr r.date == k.1 && r.cat == k.2)).length } : AggRow))) =
      (fun k : String × String => k) := by
    funext k
    simp
  rw [this]
  exact List.map_id' _

theorem mem_aggregate {hasQty : Bool} {rows : List SRow} {a : AggRow} :
    a ∈ aggregate hasQty rows ↔
      ∃ k ∈ groupKeys rows,
        a = { month := k.1, cat := k.2,
              sales_amount := ((rows.filter (fun r => monthStr r.date == k.1 && r.cat == k.2)).map SRow.amount).sum,
              qty := if hasQty then ((rows.filter (fun r => monthStr r.date == k.1 && r.cat == k.2)).map SRow.qty).sum
                else ((rows.filter (fun r => monthStr r.date == k.1 && r.cat == k.2)).length : ℚ),
              orders := (rows.filter (fun r => monthStr r.date == k.1 && r.cat == k.2)).length } := by
  unfold aggregate
  rw [List.mem_map]
  constructor
  · rintro ⟨k, hk, rfl⟩
    exact ⟨k, hk, rfl⟩
  · rintro ⟨k, hk, rfl⟩
    exact ⟨k, hk, rfl⟩

theorem pivotCell_aggregate (hasQty : Bool) (rows : List SRow) (m c : String) :
    pivotCell (aggregate hasQty rows) m c =
      ((rows.filter (fun r => monthStr r.date == m && r.cat == c)).map SRow.amount).sum := by
  unfold pivotCell
  cases hfind : (aggregate hasQty rows).find? (fun a => a.month == m && a.cat == c) with
  | none =>
    have hnone := List.find?_eq_none.mp hfind
    have hnil : rows.filter (fun r => monthStr r.date == m && r.cat == c) = [] := by
      rw [List.filter_eq_nil_iff]
      intro r hr hpred
      have hk : (m, c) ∈ groupKeys rows := by
        rw [mem_groupKeys]
        refine ⟨r, hr, ?_⟩
        simp only [Bool.and_eq_true, beq_iff_eq] at hpred
        simp [keyOf, hpred.1, hpred.2]
      have ha : ∃ a ∈ aggregate hasQty rows, a.month = m ∧ a.cat = c := by
        refine ⟨_, mem_aggregate.mpr ⟨(m, c), hk, rfl⟩, rfl, rfl⟩
      obtain ⟨a, ha, h1, h2⟩ := ha
      exact hnone a ha (by simp [h1, h2])
    rw [hnil]
    simp
  | some e =>
    have he : e ∈ aggregate hasQty rows := List.mem_of_find?_eq_some hfind
    have hpe := List.find?_some hfind
    simp only [Bool.and_eq_true, beq_iff_eq] at hpe
    obtain ⟨k, _, rfl⟩ := mem_aggregate.mp he
    obtain ⟨h1, h2⟩ := hpe
    simp only at h1 h2
    rw [h1, h2]

/-! ### Date order lemmas -/

theorem dateLe_refl (d : Date) : dateLe d d = true := by
  simp [dateLe]

theorem dateLt_not_le {a b : Date} (h : dateLt a b = true) : dateLe b a = false := by
  rw [Bool.eq_false_iff]
  intro hle
  cases a with
  | mk ay am ad =>
    cases b with
    | mk yy ym yd =>
      simp only [dateLt, dateLe, Bool.or_eq_true, Bool.and_eq_true, beq_iff_eq,
        decide_eq_true_eq, Date.mk.injEq] at h hle
      omega

/-! ### Lemmas about the chart's category ranking -/

theorem sorted_pivotCats (agg : List AggRow) : List.Sorted strLeP (pivotCats agg) :=
  List.sorted_insertionSort strLeP _

theorem pairwise_lt_pivotCats (agg : List AggRow) :
    List.Pairwise (fun a b => strLt a b = true) (pivotCats agg) := by
  have h := ((sorted_pivotCats agg).and (nodup_pivotCats agg))
  exact h.imp (fun hab => strLt_of_strLeP_of_ne hab.1 hab.2)

theorem lexUp_orderedInsert (a : String × ℚ) :
    ∀ l : List (String × ℚ),
      List.Pairwise (fun x y => x.2 < y.2 ∨ (x.2 = y.2 ∧ strLt x.1 y.1 = true)) l →
      (∀ b ∈ l, strLt a.1 b.1 = true) →
      List.Pairwise (fun x y => x.2 < y.2 ∨ (x.2 = y.2 ∧ strLt x.1 y.1 = true))
        (List.orderedInsert sndLeP a l) := by
  intro l
  induction l with
  | nil =>
    intro _ _
    simp
  | cons b l ih =>
    intro hl ha
    simp only [List.orderedInsert]
    by_cases hab : sndLeP a b
    · rw [if_pos hab]
      refine List.pairwise_cons.mpr ⟨?_, hl⟩
      intro x hx
      have hax : a.2 ≤ x.2 := by
        rcases List.mem_cons.mp hx with rfl | hx2
        · exact hab
        · have hbx := (List.pairwise_cons.mp hl).1 x hx2
          have hble : b.2 ≤ x.2 := by
            rcases hbx with h | ⟨h, _⟩
            · exact le_of_lt h
            · exact le_of_eq h
          exact le_trans hab hble
      rcases lt_or_eq_of_le hax with h | h
      · exact Or.inl h
      · exact Or.inr ⟨h, ha x hx⟩
    · rw [if_neg hab]
      refine List.pairwise_cons.mpr
        ⟨?_, ih (List.pairwise_cons.mp hl).2 (fun x hx => ha x (List.mem_cons_of_mem b hx))⟩
      intro x hx
      rcases (List.mem_orderedInsert sndLeP).mp hx with rfl | hx2
      · exact Or.inl (lt_of_not_le hab)
      · exact (List.pairwise_cons.mp hl).1 x hx2

theorem lexUp_insertionSort (l : List (String × ℚ))
    (h : List.Pairwise (fun x y => strLt x.1 y.1 = true) l) :
    List.Pairwise (fun x y => x.2 < y.2 ∨ (x.2 = y.2 ∧ strLt x.1 y.1 = true))
      (List.insertionSort sndLeP l) := by
  induction l with
  | nil => simp
  | cons a l ih =>
    simp only [List.insertionSort]
    apply lexUp_orderedInsert
    · exact ih (List.pairwise_cons.mp h).2
    · intro b hb
      exact (List.pairwise_cons.mp h).1 b ((List.mem_insertionSort sndLeP).mp hb)

theorem pairwise_fst_total_by_cat (agg : List AggRow) :
    List.Pairwise (fun x y : String × ℚ => strLt x.1 y.1 = true) (total_by_cat agg) := by
  unfold total_by_cat
  rw [List.pairwise_map]
  exact pairwise_lt_pivotCats agg

theorem pairwise_desc_sortedDescTotals (agg : List AggRow) :
    List.Pairwise (fun x y : String × ℚ => y.2 < x.2 ∨ (x.2 = y.2 ∧ strLt y.1 x.1 = true))
      (sortedDescTotals agg) := by
  unfold sortedDescTotals
  rw [List.pairwise_reverse]
  have h := lexUp_insertionSort (total_by_cat agg) (pairwise_fst_total_by_cat agg)
  exact h.imp (fun hxy => by
    rcases hxy with h1 | ⟨h1, h2⟩
    · exact Or.inl h1
    · exact Or.inr ⟨h1.symm, h2⟩)

theorem mem_total_by_cat {agg : List AggRow} {x : String × ℚ} (hx : x ∈ total_by_cat agg) :
    x.1 ∈ pivotCats agg ∧ x.2 = totalFor agg x.1 := by
  unfold total_by_cat at hx
  obtain ⟨c, hc, rfl⟩ := List.mem_map.mp hx
  exact ⟨hc, rfl⟩

theorem mem_of_mem_sortedDescTotals {agg : List AggRow} {x : String × ℚ}
    (hx : x ∈ sortedDescTotals agg) : x ∈ total_by_cat agg := by
  unfold sortedDescTotals at hx
  rw [List.mem_reverse, List.mem_insertionSort] at hx
  exact hx

theorem map_fst_total_by_cat (agg : List AggRow) :
    (total_by_cat agg).map Prod.fst = pivotCats agg := by
  unfold total_by_cat
  rw [List.map_map]
  exact List.map_id' _

theorem perm_map_fst_sortedDescTotals (agg : List AggRow) :
    ((sortedDescTotals agg).map Prod.fst).Perm (pivotCats agg) := by
  unfold sortedDescTotals
  rw [List.map_reverse]
  refine (List.reverse_perm _).trans ?_
  rw [← map_fst_total_by_cat agg]
  exact (List.perm_insertionSort sndLeP _).map Prod.fst

/-! ### Decomposition lemmas for searches -/

theorem reverse_find?_eq_some {α : Type} {l : List α} {p : α → Bool} {x : α}
    (h : l.reverse.find? p = some x) :
    p x = true ∧ ∃ pre post, l = pre ++ x :: post ∧ ∀ y ∈ post, ¬ p y := by
  rw [List.find?_eq_some] at h
  obtain ⟨hpx, as, bs, hrev, hall⟩ := h
  have hl : l = bs.reverse ++ x :: as.reverse := by
    have h2 := congrArg List.reverse hrev
    simpa [List.reverse_append] using h2
  refine ⟨hpx, bs.reverse, as.reverse, hl, ?_⟩
  intro y hy
  have hy2 : y ∈ as := by rwa [List.mem_reverse] at hy
  have := hall y hy2
  simpa using this

theorem lowermapGet_eq_some {cols : List String} {key col : String}
    (h : lowermapGet cols key = some col) :
    lowerStr col = key ∧ ∃ pre post, cols = pre ++ col :: post ∧
      ∀ x ∈ post, lowerStr x ≠ key := by
  unfold lowermapGet at h
  obtain ⟨hp, pre, post, hl, hall⟩ := reverse_find?_eq_some h
  refine ⟨by simpa using hp, pre, post, hl, ?_⟩
  intro x hx
  have := hall x hx
  simpa using this

theorem lowermapGet_isSome {cols : List String} {key : String} :
    (lowermapGet cols key).isSome = true ↔ ∃ col ∈ cols, lowerStr col = key := by
  unfold lowermapGet
  rw [List.find?_isSome]
  simp [List.mem_reverse]

/-! ## The claims -/

/-- C1: for every pivot matrix, every cell of the Change Matrix in a row
other than the first equals `(pivot[m][c] - pivot[m-1][c]) / pivot[m-1][c]`
when `pivot[m-1][c]` is nonzero and is undefined (`none`, not an infinity)
when `pivot[m-1][c]` is zero; every cell of the first row is undefined. -/
theorem pct_change_spec (agg : List AggRow) (c : String) (i : ℕ) :
    pctCell agg 0 c = none ∧
    (1 ≤ i → i < (pivotMonths agg).length →
      (pivotCell agg ((pivotMonths agg).getD (i - 1) "") c ≠ 0 →
        pctCell agg i c =
          some ((pivotCell agg ((pivotMonths agg).getD i "") c -
                 pivotCell agg ((pivotMonths agg).getD (i - 1) "") c) /
                pivotCell agg ((pivotMonths agg).getD (i - 1) "") c)) ∧
      (pivotCell agg ((pivotMonths agg).getD (i - 1) "") c = 0 →
        pctCell agg i c = none)) := by
  refine ⟨by unfold pctCell; simp, ?_⟩
  intro h1 h2
  constructor
  · intro hne
    unfold pctCell
    rw [if_neg (by omega)]
    simp only
    rw [if_neg hne]
    congr 1
    rw [eq_div_iff hne, sub_mul, div_mul_cancel₀ _ hne, one_mul]
  · intro heq
    unfold pctCell
    rw [if_neg (by omega)]
    simp only
    rw [if_pos heq]

/-- Input for the witness of C1: an aggregate with two months and one
category. -/
def exAggC1 : List AggRow :=
  [⟨"2025-10", "A", 4, 1, 1⟩, ⟨"2025-11", "A", 6, 1, 1⟩]

/-- Witness for C1 at a concrete input: the November cell of the Change
Matrix is `(6 - 4) / 4`. -/
theorem pct_change_spec_witness : pctCell exAggC1 1 "A" = some ((6 - 4) / 4) := by
  have hm : pivotMonths exAggC1 = ["2025-10", "2025-11"] := rfl
  have h4 : pivotCell exAggC1 ((pivotMonths exAggC1).getD 0 "") "A" = 4 := by
    rw [hm]; rfl
  have h6 : pivotCell exAggC1 ((pivotMonths exAggC1).getD 1 "") "A" = 6 := by
    rw [hm]; rfl
  have h := ((pct_change_spec exAggC1 "A" 1).2 (le_refl 1)
    (by rw [hm]; norm_num)).1 (by rw [h4]; norm_num)
  rw [h, h4, h6]

/-- C7: a row whose parsed date is strictly before `start` or strictly after
`end` never passes the date filter, while a row whose parsed date equals
either boundary of a well-formed range is kept by it. -/
theorem date_filter_spec (s e : Date) (rows : List RawRow) (r : RawRow) (d : Date)
    (hmem : r ∈ rows) (hd : r.date = some d) :
    ((dateLt d s = true ∨ dateLt e d = true) → r ∉ filterDates s e rows) ∧
    ((d = s ∨ d = e) → dateLe s e = true → r ∈ filterDates s e rows) := by
  have hmask : (match r.date with
      | some x => inRange s e x
      | none => false) = inRange s e d := by
    rw [hd]
  constructor
  · intro hout hin
    unfold filterDates dropBadDates at hin
    rw [List.mem_filter] at hin
    obtain ⟨_, h2⟩ := hin
    rw [hmask] at h2
    unfold inRange at h2
    rw [Bool.and_eq_true] at h2
    rcases hout with h | h
    · have hf := dateLt_not_le h
      rw [hf] at h2
      exact absurd h2.1 (by simp)
    · have hf := dateLt_not_le h
      rw [hf] at h2
      exact absurd h2.2 (by simp)
  · intro hde hse
    unfold filterDates dropBadDates
    rw [List.mem_filter, List.mem_filter]
    refine ⟨⟨hmem, by rw [hd]; rfl⟩, ?_⟩
    rw [hmask]
    unfold inRange
    rw [Bool.and_eq_true]
    rcases hde with rfl | rfl
    · exact ⟨dateLe_refl d, hse⟩
    · exact ⟨hse, dateLe_refl d⟩

/-- Input for the witness of C7: one row exactly on the start boundary of
the default range. -/
def exRowsC7 : List RawRow :=
  [⟨some ⟨2025, 10, 1⟩, some "A", some 100, none⟩]

/-- Witness for C7 at a concrete input: a row dated exactly on the start
boundary (2025-10-01 in the default range) passes the filter. -/
theorem date_filter_spec_witness :
    (⟨some ⟨2025, 10, 1⟩, some "A", some 100, none⟩ : RawRow) ∈
      filterDates ⟨2025, 10, 1⟩ ⟨2026, 1, 31⟩ exRowsC7 :=
  (date_filter_spec ⟨2025, 10, 1⟩ ⟨2026, 1, 31⟩ exRowsC7 _ ⟨2025, 10, 1⟩
      (List.mem_cons_self _ _) rfl).2 (Or.inl rfl) (by decide)

/-- Counting helper: the rows removed by the amount dropna are exactly the
rows whose quantity cell failed coercion. -/
theorem length_drop_eq (rows : List RawRow) :
    rows.length - (rows.filter (fun r => r.qty.isSome)).length =
      (rows.filter (fun r => r.qty == none)).length := by
  induction rows with
  | nil => rfl
  | cons r rows ih =>
    have hle := List.length_filter_le (fun r : RawRow => r.qty.isSome) rows
    cases hq : r.qty with
    | none =>
      simp only [List.filter_cons, hq, Option.isSome_none, Bool.false_eq_true, if_false,
        List.length_cons]
      simp only [show ((none : Option ℚ) == none) = true from rfl, if_true, List.length_cons]
      omega
    | some v =>
      simp only [List.filter_cons, hq, Option.isSome_some, if_true, List.length_cons]
      simp only [show ((some v : Option ℚ) == none) = false from rfl, Bool.false_eq_true, if_false]
      omega

/-- C10: when the quantity column serves as the amount column, rows whose
quantity fails numeric coercion are dropped and counted in the reported drop
count; the later `fillna(0)` touches no surviving row, so no dropped row is
kept with its value replaced by zero. -/
theorem qty_coercion_drop (rows : List RawRow) :
    (qtyAsAmountDrop rows).2 = (rows.filter (fun r => r.qty == none)).length ∧
    qtyFill (qtyAsAmountDrop rows).1 = (qtyAsAmountDrop rows).1 ∧
    (∀ r ∈ rows, r.qty = none → r ∉ (qtyAsAmountDrop rows).1) ∧
    (∀ r ∈ rows, r.qty ≠ none → r ∈ (qtyAsAmountDrop rows).1) := by
  refine ⟨length_drop_eq rows, ?_, ?_, ?_⟩
  · unfold qtyFill qtyAsAmountDrop
    simp only
    have h : ∀ r ∈ rows.filter (fun r : RawRow => r.qty.isSome),
        { r with qty := some (r.qty.getD 0) } = r := by
      intro r hr
      rw [List.mem_filter] at hr
      obtain ⟨v, hv⟩ := Option.isSome_iff_exists.mp hr.2
      cases r with
      | mk rd rc ra rq =>
        simp only at hv
        rw [hv]
        rfl
    rw [List.map_congr_left h]
    exact List.map_id' _
  · intro r hr hq hin
    unfold qtyAsAmountDrop at hin
    simp only at hin
    rw [List.mem_filter] at hin
    rw [hq] at hin
    exact absurd hin.2 (by simp)
  · intro r hr hq
    unfold qtyAsAmountDrop
    simp only
    rw [List.mem_filter]
    exact ⟨hr, Option.isSome_iff_ne_none.mpr hq⟩

/-- Input for the witness of C10: one coercible and one non-coercible
quantity cell. -/
def exRowsC10 : List RawRow :=
  [⟨some ⟨2025, 10, 1⟩, some "A", none, some 2⟩,
   ⟨some ⟨2025, 10, 2⟩, some "A", none, none⟩]

/-- Witness for C10 at a concrete input: the row with the failed quantity
coercion is not among the kept rows. -/
theorem qty_coercion_drop_witness :
    (⟨some ⟨2025, 10, 2⟩, some "A", none, none⟩ : RawRow) ∉ (qtyAsAmountDrop exRowsC10).1 :=
  (qty_coercion_drop exRowsC10).2.2.1 _
    (List.mem_cons_of_mem _ (List.mem_cons_self _ _)) rfl

/-- Input for C5, one distinct month: the report block is skipped. -/
def exRowsC5one : List SRow :=
  [⟨⟨2025, 10, 5⟩, "A", 100, 1⟩]

/-- Input for C5, two distinct months: line 181 evaluates `pivot['2025-11']`,
a column lookup among category columns, and raises `KeyError`. -/
def exRowsC5two : List SRow :=
  [⟨⟨2025, 10, 5⟩, "A", 100, 1⟩, ⟨⟨2025, 11, 6⟩, "A", 50, 1⟩]

/-- C5: with fewer than 2 months the report block skips with a message (all
tabular exports and the chart were already written by lines 147-174, which
precede it unconditionally); but with at least 2 months the script does NOT
produce the report: it raises `KeyError` on the month-named column lookup
`pivot[last]`. -/
theorem report_step_behavior :
    reportStep (aggregate false exRowsC5one) = ReportOutcome.skipped ∧
    reportStep (aggregate false exRowsC5two) = ReportOutcome.keyError "2025-11" :=
  ⟨rfl, rfl⟩

/-- C6: whenever the pivot has at least 2 months and its last month label is
not also a category label, the report block raises `KeyError` on
`pivot[last]` instead of computing any per-category change. -/
theorem report_keyerror_general (agg : List AggRow)
    (h2 : 2 ≤ (pivotMonths agg).length)
    (hnc : ((pivotMonths agg).getLastD "") ∉ pivotCats agg) :
    reportStep agg = ReportOutcome.keyError ((pivotMonths agg).getLastD "") := by
  unfold reportStep
  simp only
  rw [if_neg (by omega)]
  rw [if_neg (by simpa using hnc)]

/-- Input for the witness of C6. -/
def exAggC6 : List AggRow :=
  [⟨"2025-10", "A", 100, 1, 1⟩, ⟨"2025-11", "A", 50, 1, 1⟩]

/-- Witness for C6 at a concrete input. -/
theorem report_keyerror_general_witness :
    reportStep exAggC6 = ReportOutcome.keyError ((pivotMonths exAggC6).getLastD "") :=
  report_keyerror_general exAggC6 (by decide) (by decide)

/-- C3: the aggregation step produces exactly one output row per distinct
(month, category) pair observed in the data — with month the calendar
year-month label of the row's date — whose `sales_amount` is the summed
amount of the group, whose `orders` is the group's row count, and whose
`qty` is the summed quantity when a quantity column exists and the row count
otherwise. -/
theorem aggregate_spec (hasQty : Bool) (rows : List SRow) :
    ((aggregate hasQty rows).map (fun a => (a.month, a.cat))).Nodup ∧
    (∀ m c, (m, c) ∈ (aggregate hasQty rows).map (fun a => (a.month, a.cat)) ↔
        ∃ r ∈ rows, monthStr r.date = m ∧ r.cat = c) ∧
    (∀ a ∈ aggregate hasQty rows,
        a.sales_amount =
          ((rows.filter (fun r => monthStr r.date == a.month && r.cat == a.cat)).map SRow.amount).sum ∧
        a.orders = (rows.filter (fun r => monthStr r.date == a.month && r.cat == a.cat)).length ∧
        a.qty = (if hasQty
          then ((rows.filter (fun r => monthStr r.date == a.month && r.cat == a.cat)).map SRow.qty).sum
          else (a.orders : ℚ))) := by
  refine ⟨?_, ?_, ?_⟩
  · rw [map_key_aggregate]
    exact nodup_groupKeys rows
  · intro m c
    rw [map_key_aggregate, mem_groupKeys]
    constructor
    · rintro ⟨r, hr, hk⟩
      exact ⟨r, hr, congrArg Prod.fst hk, congrArg Prod.snd hk⟩
    · rintro ⟨r, hr, h1, h2⟩
      refine ⟨r, hr, ?_⟩
      unfold keyOf
      rw [h1, h2]
  · intro a ha
    obtain ⟨k, hk, rfl⟩ := mem_aggregate.mp ha
    exact ⟨rfl, rfl, rfl⟩

/-- Input for the witness of C3. -/
def exRowsC3 : List SRow :=
  [⟨⟨2025, 10, 5⟩, "A", 100, 2⟩]

/-- Witness for C3 at a concrete input: the observed pair appears among the
aggregate's keys. -/
theorem aggregate_spec_witness :
    ("2025-10", "A") ∈ (aggregate true exRowsC3).map (fun a => (a.month, a.cat)) :=
  ((aggregate_spec true exRowsC3).2.1 "2025-10" "A").mpr
    ⟨⟨⟨2025, 10, 5⟩, "A", 100, 2⟩, List.mem_cons_self _ _, by decide, rfl⟩

/-- C4: the Pivot Matrix has exactly one row per distinct month of the data
and one column per distinct category (no duplicate labels), its month index
is strictly ascending, each cell is the summed sales amount of its (month,
category) group, and a combination with no aggregate row holds zero. -/
theorem pivot_spec (hasQty : Bool) (rows : List SRow) :
    (pivotMonths (aggregate hasQty rows)).Nodup ∧
    List.Pairwise (fun a b => strLt a b = true) (pivotMonths (aggregate hasQty rows)) ∧
    (∀ m, m ∈ pivotMonths (aggregate hasQty rows) ↔ ∃ r ∈ rows, monthStr r.date = m) ∧
    (pivotCats (aggregate hasQty rows)).Nodup ∧
    (∀ c, c ∈ pivotCats (aggregate hasQty rows) ↔ ∃ r ∈ rows, r.cat = c) ∧
    (∀ m c, pivotCell (aggregate hasQty rows) m c =
        ((rows.filter (fun r => monthStr r.date == m && r.cat == c)).map SRow.amount).sum) ∧
    (∀ m c, (¬ ∃ r ∈ rows, monthStr r.date = m ∧ r.cat = c) →
        pivotCell (aggregate hasQty rows) m c = 0) := by
  refine ⟨nodup_pivotMonths _, pairwise_lt_pivotMonths _, ?_, nodup_pivotCats _, ?_, ?_, ?_⟩
  · intro m
    rw [mem_pivotMonths]
    constructor
    · rintro ⟨a, ha, rfl⟩
      obtain ⟨k, hk, rfl⟩ := mem_aggregate.mp ha
      obtain ⟨r, hr, hkr⟩ := mem_groupKeys.mp hk
      exact ⟨r, hr, congrArg Prod.fst hkr⟩
    · rintro ⟨r, hr, rfl⟩
      have hk : (monthStr r.date, r.cat) ∈ groupKeys rows :=
        mem_groupKeys.mpr ⟨r, hr, rfl⟩
      exact ⟨_, mem_aggregate.mpr ⟨_, hk, rfl⟩, rfl⟩
  · intro c
    rw [mem_pivotCats]
    constructor
    · rintro ⟨a, ha, rfl⟩
      obtain ⟨k, hk, rfl⟩ := mem_aggregate.mp ha
      obtain ⟨r, hr, hkr⟩ := mem_groupKeys.mp hk
      exact ⟨r, hr, congrArg Prod.snd hkr⟩
    · rintro ⟨r, hr, rfl⟩
      have hk : (monthStr r.date, r.cat) ∈ groupKeys rows :=
        mem_groupKeys.mpr ⟨r, hr, rfl⟩
      exact ⟨_, mem_aggregate.mpr ⟨_, hk, rfl⟩, rfl⟩
  · intro m c
    exact pivotCell_aggregate hasQty rows m c
  · intro m c hne
    rw [pivotCell_aggregate]
    have hnil : rows.filter (fun r => monthStr r.date == m && r.cat == c) = [] := by
      rw [List.filter_eq_nil_iff]
      intro r hr hp
      simp only [Bool.and_eq_true, beq_iff_eq] at hp
      exact hne ⟨r, hr, hp.1, hp.2⟩
    rw [hnil]
    rfl

/-- Input for the witness of C4. -/
def exRowsC4 : List SRow :=
  [⟨⟨2025, 10, 5⟩, "A", 100, 2⟩, ⟨⟨2025, 11, 6⟩, "B", 50, 1⟩]

/-- Witness for C4 at a concrete input: the unobserved (month, category)
combination holds zero. -/
theorem pivot_spec_witness :
    pivotCell (aggregate true exRowsC4) "2025-10" "B" = 0 :=
  (pivot_spec true exRowsC4).2.2.2.2.2.2 "2025-10" "B" (by decide)

/-- Counterexample to C2 as stated: with header list `["Date"]` and
candidate list `["date"]` no candidate matches exactly, the candidate
`"date"` matches case-insensitively, yet the function returns the header's
spelling `"Date"`, not the candidate `"date"` the claim promises. -/
theorem detect_column_counterexample :
    (∀ c ∈ (["date"] : List String), c ∉ (["Date"] : List String)) ∧
    detect_column ["Date"] ["date"] = some "Date" ∧
    detect_column ["Date"] ["date"] ≠ some "date" := by
  refine ⟨by decide, by decide, by decide⟩

/-- C2 (amended): the detector returns the first candidate (in candidate
order) that matches a header exactly; failing that, it selects the first
candidate with a case-insensitive header match but returns the MATCHED
HEADER's original spelling; failing both, it returns `none` rather than
raising. -/
theorem detect_column_spec (cols cands : List String) :
    (∀ c pre post, cands = pre ++ c :: post → c ∈ cols → (∀ y ∈ pre, y ∉ cols) →
        detect_column cols cands = some c) ∧
    ((∀ c ∈ cands, c ∉ cols) →
      ∀ c pre post, cands = pre ++ c :: post →
        (∃ col ∈ cols, lowerStr col = lowerStr c) →
        (∀ y ∈ pre, ∀ col ∈ cols, lowerStr col ≠ lowerStr y) →
        ∃ col, detect_column cols cands = some col ∧ col ∈ cols ∧
          lowerStr col = lowerStr c) ∧
    (detect_column cols cands = none ↔
        ∀ c ∈ cands, c ∉ cols ∧ ∀ col ∈ cols, lowerStr col ≠ lowerStr c) := by
  refine ⟨?_, ?_, ?_⟩
  · intro c pre post hsplit hc hpre
    have hfind : cands.find? (fun c => cols.contains c) = some c := by
      rw [List.find?_eq_some]
      refine ⟨by simpa using hc, pre, post, hsplit, ?_⟩
      intro y hy
      simpa using hpre y hy
    unfold detect_column
    rw [hfind]
  · intro hnone c pre post hsplit hex hpre
    have hfind1 : cands.find? (fun c => cols.contains c) = none := by
      rw [List.find?_eq_none]
      intro x hx
      simpa using hnone x hx
    have hfind2 : cands.find? (fun c => (lowermapGet cols (lowerStr c)).isSome) = some c := by
      rw [List.find?_eq_some]
      refine ⟨lowermapGet_isSome.mpr hex, pre, post, hsplit, ?_⟩
      intro y hy
      have hnoy : lowermapGet cols (lowerStr y) = none := by
        cases hlg : lowermapGet cols (lowerStr y) with
        | none => rfl
        | some col =>
          obtain ⟨hlow2, pre2, post2, hcols2, _⟩ := lowermapGet_eq_some hlg
          have hcolmem : col ∈ cols := by
            rw [hcols2]
            exact List.mem_append_right _ (List.mem_cons_self _ _)
          exact absurd hlow2 (hpre y hy col hcolmem)
      simp [hnoy]
    have hval : (lowermapGet cols (lowerStr c)).isSome = true := lowermapGet_isSome.mpr hex
    obtain ⟨col, hcol⟩ := Option.isSome_iff_exists.mp hval
    obtain ⟨hlow, pre2, post2, hcols2, _⟩ := lowermapGet_eq_some hcol
    refine ⟨col, ?_, ?_, hlow⟩
    · unfold detect_column
      rw [hfind1, hfind2]
      exact hcol
    · rw [hcols2]
      exact List.mem_append_right _ (List.mem_cons_self _ _)
  · constructor
    · intro hdet c hc
      unfold detect_column at hdet
      cases hfind1 : cands.find? (fun c => cols.contains c) with
      | some x =>
        rw [hfind1] at hdet
        exact absurd hdet (by simp)
      | none =>
        rw [hfind1] at hdet
        have h1 : c ∉ cols := by
          have := List.find?_eq_none.mp hfind1 c hc
          simpa using this
        refine ⟨h1, ?_⟩
        intro col hcol hlow
        cases hfind2 : cands.find? (fun c => (lowermapGet cols (lowerStr c)).isSome) with
        | some x =>
          rw [hfind2] at hdet
          have hx := List.find?_some hfind2
          have hdet2 : lowermapGet cols (lowerStr x) = none := hdet
          rw [hdet2] at hx
          simp at hx
        | none =>
          have hnc := List.find?_eq_none.mp hfind2 c hc
          exact hnc (lowermapGet_isSome.mpr ⟨col, hcol, hlow⟩)
    · intro h
      have hfind1 : cands.find? (fun c => cols.contains c) = none := by
        rw [List.find?_eq_none]
        intro x hx
        simpa using (h x hx).1
      have hfind2 : cands.find? (fun c => (lowermapGet cols (lowerStr c)).isSome) = none := by
        rw [List.find?_eq_none]
        intro x hx
        intro hsome
        obtain ⟨col, hcol, hlow⟩ := lowermapGet_isSome.mp hsome
        exact (h x hx).2 col hcol hlow
      unfold detect_column
      rw [hfind1, hfind2]

/-- Witness for C2 (amended) at a concrete input: with headers
`["金额", "Date"]` and candidates `["amount", "date"]` the case-insensitive
pass selects candidate `"date"` and returns the header `"Date"`. -/
theorem detect_column_spec_witness :
    ∃ col, detect_column ["金额", "Date"] ["amount", "date"] = some col ∧
      col ∈ (["金额", "Date"] : List String) ∧ lowerStr col = lowerStr "date" :=
  (detect_column_spec ["金额", "Date"] ["amount", "date"]).2.1
    (by decide) "date" ["amount"] [] rfl (by decide) (by decide)

/-- C9: in the case-insensitive pass the value returned is a header in its
original spelling, and it is the LAST header (in column order) whose
lowercase form equals the selected candidate's lowercase form — later
columns overwrite earlier ones in the `lowermap` dict comprehension. -/
theorem detect_fuzzy_returns_last_header (cols cands : List String) (c : String)
    (hex : cands.find? (fun x => cols.contains x) = none)
    (hfz : cands.find? (fun x => (lowermapGet cols (lowerStr x)).isSome) = some c) :
    ∃ col pre post, detect_column cols cands = some col ∧
      lowerStr col = lowerStr c ∧
      cols = pre ++ col :: post ∧
      ∀ x ∈ post, lowerStr x ≠ lowerStr c := by
  have hval : (lowermapGet cols (lowerStr c)).isSome = true := by
    have := List.find?_some hfz
    simpa using this
  obtain ⟨col, hcol⟩ := Option.isSome_iff_exists.mp hval
  obtain ⟨hlow, pre, post, hcols, hpost⟩ := lowermapGet_eq_some hcol
  refine ⟨col, pre, post, ?_, hlow, hcols, ?_⟩
  · unfold detect_column
    rw [hex, hfz]
    exact hcol
  · intro x hx
    exact hpost x hx

/-- Witness for C9 at a concrete input: among the headers
`["DATE", "Date"]`, both of which lowercase to `"date"`, the LAST one,
`"Date"`, is returned. -/
theorem detect_fuzzy_returns_last_header_witness :
    ∃ col pre post, detect_column ["DATE", "Date"] ["date"] = some col ∧
      lowerStr col = lowerStr "date" ∧
      (["DATE", "Date"] : List String) = pre ++ col :: post ∧
      ∀ x ∈ post, lowerStr x ≠ lowerStr "date" :=
  detect_fuzzy_returns_last_header ["DATE", "Date"] ["date"] "date"
    (by decide) (by decide)

/-- Input for the C8 counterexample: two categories, encountered "A" before
"B", with equal totals. -/
def exAggC8 : List AggRow :=
  [⟨"2025-10", "A", 5, 1, 1⟩, ⟨"2025-10", "B", 5, 1, 1⟩]

/-- Counterexample to C8 as stated: categories "A" and "B" have equal totals
and "A" is encountered first, yet the top-1 selection is ["B"] — the sort
reverses its ascending pass over the label-sorted totals, so ties come out
in DESCENDING label order, not encounter order. -/
theorem chart_ties_counterexample :
    totalFor exAggC8 "A" = totalFor exAggC8 "B" ∧
    exAggC8.map AggRow.cat = ["A", "B"] ∧
    top_cats exAggC8 1 = ["B"] ∧
    top_cats exAggC8 1 ≠ ["A"] := by
  have htop : top_cats exAggC8 1 = ["B"] := by
    simp [top_cats, sortedDescTotals, total_by_cat, totalFor, pivotCats, exAggC8,
      dedupFirst, dedupFirstGo, sndLeP]
  refine ⟨rfl, rfl, htop, ?_⟩
  rw [htop]
  simp

/-- C8 (amended): the chart step selects up to N categories ranked by total
`sales_amount` descending, with ties between categories of equal total
broken by DESCENDING category label (the descending sort reverses a stable
ascending pass over the label-sorted `groupby` output, so encounter order
plays no role), and plots exactly one series per selected category. -/
theorem chart_top_spec (agg : List AggRow) (n : ℕ) :
    (top_cats agg n).length ≤ n ∧
    (top_cats agg n).Nodup ∧
    (∀ c ∈ top_cats agg n, c ∈ pivotCats agg) ∧
    chartSeries agg n = top_cats agg n ∧
    List.Pairwise (fun c d => totalFor agg d < totalFor agg c ∨
        (totalFor agg c = totalFor agg d ∧ strLt d c = true)) (top_cats agg n) := by
  have hperm := perm_map_fst_sortedDescTotals agg
  have hmem : ∀ c ∈ top_cats agg n, c ∈ pivotCats agg := by
    intro c hc
    unfold top_cats at hc
    exact hperm.mem_iff.mp (List.mem_of_mem_take hc)
  refine ⟨?_, ?_, hmem, ?_, ?_⟩
  · unfold top_cats
    rw [List.length_take]
    exact min_le_left _ _
  · unfold top_cats
    exact (hperm.nodup_iff.mpr (nodup_pivotCats agg)).sublist (List.take_sublist _ _)
  · unfold chartSeries
    rw [List.filter_eq_self]
    intro c hc
    simpa using hmem c hc
  · unfold top_cats
    refine List.Pairwise.sublist (List.take_sublist _ _) ?_
    rw [List.pairwise_map]
    have hdesc := pairwise_desc_sortedDescTotals agg
    refine hdesc.imp_of_mem ?_
    intro a b ha hb hr
    have haT := (mem_total_by_cat (mem_of_mem_sortedDescTotals ha)).2
    have hbT := (mem_total_by_cat (mem_of_mem_sortedDescTotals hb)).2
    rcases hr with h1 | ⟨h1, h2⟩
    · exact Or.inl (by rw [← haT, ← hbT]; exact h1)
    · exact Or.inr ⟨by rw [← haT, ← hbT]; exact h1, h2⟩

/-- Input for the witness of C8 (amended): three categories with distinct
and tied totals. -/
def exAggC8w : List AggRow :=
  [⟨"2025-10", "A", 3, 1, 1⟩, ⟨"2025-10", "B", 7, 1, 1⟩, ⟨"2025-10", "C", 3, 1, 1⟩]

/-- Witness for C8 (amended) at a concrete input: the selected category "B"
is indeed a pivot column (so its series is drawn). -/
theorem chart_top_spec_witness : "B" ∈ pivotCats exAggC8w :=
  (chart_top_spec exAggC8w 2).2.2.1 "B" (by
    have htop : top_cats exAggC8w 2 = ["B", "C"] := by
      simp [top_cats, sortedDescTotals, total_by_cat, totalFor, pivotCats, exAggC8w,
        dedupFirst, dedupFirstGo, sndLeP]
    rw [htop]
    simp)

end SalesAnalysis
